import Mathlib

/-!
QRuSSt — verification of the sliding-window spectral-analysis pipeline.

Shallow embedding of the program sources:
  * `src/windows.rs`  — the window-function library (per-index coefficient
    formulas, transcribed with the source's exact parenthesisation);
  * `src/main.rs`     — the `fft_process` thread's derived-parameter
    computation (lines 155-186), its per-sample window/FFT/normalize loop
    (lines 196-235), and the condition-variable wait loops of the three
    worker threads (audio capture, fft, image).

Conventions: `f32` values are modelled as exact real numbers (`ℝ`), or as
exact rationals (`ℚ`) where the computation stays rational; `u32` values
are modelled as `ℕ`, and the checked `u32` operations used on the
generation-start path return `Option ℕ` where `none` marks a Rust panic
(debug-build overflow/underflow, division by zero).  `f.round()` on a
nonnegative value agrees with Mathlib's `round` (ties away from zero and
ties up coincide on nonnegative input).  For the `as u32` saturating cast
of a ceiling, note that Lean's `Real.log 0 = 0` convention and Rust's
`ln(0) = -inf` both make the cast produce `0`, so `nearest_pow_2 0 = 0` in
both semantics.
-/

namespace QRuSSt

/- ## Window function library (`src/windows.rs`)

Each `...Coef L n` is the body of the closure mapped over `0..window_length`
in the corresponding Rust function; the parenthesisation follows the source
text exactly. -/

/-- Coefficient closure of `windows::rectangle` (src/windows.rs:10-12). -/
def rectangleCoef (_L _n : ℕ) : ℝ := 1

/-- Coefficient closure of `windows::cosine` (src/windows.rs:15-19). -/
noncomputable def cosineCoef (L n : ℕ) : ℝ :=
  Real.sin (Real.pi * n / ((L : ℝ) - 1)) * 1.571

/-- Coefficient closure of `windows::triangle` (src/windows.rs:22-26). -/
noncomputable def triangleCoef (L n : ℕ) : ℝ :=
  (2 / (L : ℝ)) * ((L : ℝ) / 2 - |(n : ℝ) - ((L : ℝ) - 1) / 2|) * 2

/-- Coefficient closure of `windows::hamming` (src/windows.rs:29-33). -/
noncomputable def hammingCoef (L n : ℕ) : ℝ :=
  (0.53836 - (0.46164 * Real.cos (2 * Real.pi * n / ((L : ℝ) - 1)))) * 2

/-- Coefficient closure of `windows::hann` (src/windows.rs:36-40). -/
noncomputable def hannCoef (L n : ℕ) : ℝ :=
  (0.5 - (0.5 * Real.cos (2 * Real.pi * n / ((L : ℝ) - 1)))) * 2

/-- Coefficient closure of `windows::blackman` (src/windows.rs:43-48): the
source subtracts the whole parenthesised sum of both cosine terms. -/
noncomputable def blackmanCoef (L n : ℕ) : ℝ :=
  (0.42659 - (0.496560 * Real.cos (2 * Real.pi * n / ((L : ℝ) - 1)) +
              0.076849 * Real.cos (4 * Real.pi * n / ((L : ℝ) - 1)))) * 2.381

/-- Coefficient closure of `windows::nuttall` (src/windows.rs:51-57): the
source subtracts the whole parenthesised combination of the cosine terms. -/
noncomputable def nuttallCoef (L n : ℕ) : ℝ :=
  (0.355768 - (0.487396 * Real.cos (2 * Real.pi * n / ((L : ℝ) - 1)) +
               0.144320 * Real.cos (4 * Real.pi * n / ((L : ℝ) - 1)) -
               0.012604 * Real.cos (6 * Real.pi * n / ((L : ℝ) - 1)))) * 2.811

/-- Coefficient closure of `windows::flat` (src/windows.rs:60-67). -/
noncomputable def flatCoef (L n : ℕ) : ℝ :=
  1 - (1.930 * Real.cos (2 * Real.pi * n / ((L : ℝ) - 1)) +
       1.290 * Real.cos (4 * Real.pi * n / ((L : ℝ) - 1)) -
       0.388 * Real.cos (6 * Real.pi * n / ((L : ℝ) - 1)) +
       0.032 * Real.cos (8 * Real.pi * n / ((L : ℝ) - 1)))

/-- `windows::rectangle`: `vec![1.; window_length]`. -/
def rectangle (L : ℕ) : List ℝ := List.replicate L 1

/-- `windows::cosine`: `(0..window_length).map(...).collect()`. -/
noncomputable def cosine (L : ℕ) : List ℝ := (List.range L).map (cosineCoef L)

/-- `windows::triangle`. -/
noncomputable def triangle (L : ℕ) : List ℝ := (List.range L).map (triangleCoef L)

/-- `windows::hamming`. -/
noncomputable def hamming (L : ℕ) : List ℝ := (List.range L).map (hammingCoef L)

/-- `windows::hann`. -/
noncomputable def hann (L : ℕ) : List ℝ := (List.range L).map (hannCoef L)

/-- `windows::blackman`. -/
noncomputable def blackman (L : ℕ) : List ℝ := (List.range L).map (blackmanCoef L)

/-- `windows::nuttall`. -/
noncomputable def nuttall (L : ℕ) : List ℝ := (List.range L).map (nuttallCoef L)

/-- `windows::flat`. -/
noncomputable def flat (L : ℕ) : List ℝ := (List.range L).map (flatCoef L)

/-- The window shapes of `settings::FftWindowType` (src/settings.rs:107-116). -/
inductive FftWindowType
  | rectangle | cosine | triangle | hann | blackman | hamming | nuttall | flat
deriving DecidableEq, Repr

/-- The window generator contract of spec §4.3 (`generate(shape, length)`)
dispatching to the shape functions of `src/windows.rs`. -/
noncomputable def generate : FftWindowType → ℕ → List ℝ
  | .rectangle, L => rectangle L
  | .cosine,    L => cosine L
  | .triangle,  L => triangle L
  | .hann,      L => hann L
  | .blackman,  L => blackman L
  | .hamming,   L => hamming L
  | .nuttall,   L => nuttall L
  | .flat,      L => flat L

/- Spec-side window formulas, for comparison with the source formulas above.
These two definitions follow the spec's formula table (§4.3) word for word:
the `4πn` cosine term enters with a positive sign, and the Nuttall `6πn`
term with a negative sign. -/

/-- Modelled from the spec's formula table: Blackman row,
`(0.42659 − 0.496560·cos(2πn/(L-1)) + 0.076849·cos(4πn/(L-1))) · 2.381`. -/
noncomputable def blackmanCoefSpec (L n : ℕ) : ℝ :=
  (0.42659 - 0.496560 * Real.cos (2 * Real.pi * n / ((L : ℝ) - 1)) +
             0.076849 * Real.cos (4 * Real.pi * n / ((L : ℝ) - 1))) * 2.381

/-- Modelled from the spec's formula table: Nuttall row,
`(0.355768 − 0.487396·cos(2πn/(L-1)) + 0.144320·cos(4πn/(L-1)) −
0.012604·cos(6πn/(L-1))) · 2.811`. -/
noncomputable def nuttallCoefSpec (L n : ℕ) : ℝ :=
  (0.355768 - 0.487396 * Real.cos (2 * Real.pi * n / ((L : ℝ) - 1)) +
              0.144320 * Real.cos (4 * Real.pi * n / ((L : ℝ) - 1)) -
              0.012604 * Real.cos (6 * Real.pi * n / ((L : ℝ) - 1))) * 2.811

/- ## Derived parameters of the transform stage (`src/main.rs:155-186`) -/

/-- `frame_sec = frame_min * 60` with `frame_min = 2` (src/main.rs:159-160). -/
def frame_sec : ℕ := 120

/-- `samples_per_frame = sample_rate * frame_sec` (src/main.rs:163). -/
def samples_per_frame (rate : ℕ) : ℕ := rate * frame_sec

/-- `samples_per_pixel_x = samples_per_frame / img_x` (src/main.rs:165),
integer division. -/
def samples_per_pixel_x (rate imgX : ℕ) : ℕ := samples_per_frame rate / imgX

/-- `overlap_samples = (samples_per_pixel_x as f32 * 0.33).round() as u32`
(src/main.rs:167-168), with the arithmetic modelled exactly over `ℚ`. -/
def overlap_samples (spp : ℕ) : ℕ := (round ((spp : ℚ) * (33 / 100))).toNat

/-- `window_size = samples_per_pixel_x + overlap_samples * 2` (src/main.rs:170). -/
def window_size (spp : ℕ) : ℕ := spp + overlap_samples spp * 2

/-- `shift_size = window_size - overlap_samples` (src/main.rs:171). -/
def shift_size (spp : ℕ) : ℕ := window_size spp - overlap_samples spp

/-- `nearest_pow_2 = ((window_size as f32).ln() / 2_f32.ln()).ceil() as u32`
(src/main.rs:178), with the float computation idealized over `ℝ`.  The
idealization has limits: the `u32 → f32` cast of `window_size` is exact
only for `window_size ≤ 2^24` (above that the cast rounds, e.g.
`2^24 + 1` casts to `2^24`), and the last-ulp rounding of the f32
logarithm quotient (platform libm, unspecified by Rust) is not modelled;
the C4 theorems below confine themselves to inputs where the idealization
is robust. -/
noncomputable def nearest_pow_2 (w : ℕ) : ℕ :=
  (⌈Real.log w / Real.log 2⌉).toNat

/-- `fft_size = 2_u32.pow(nearest_pow_2)` (src/main.rs:179) as the
unbounded mathematical power; the source's `2_u32.pow` itself overflows
when the exponent reaches 32 (`window_size > 2^31`) — the checked form is
`pow32 2 (nearest_pow_2 w)`, used by the C4 theorems. -/
noncomputable def fft_size (w : ℕ) : ℕ := 2 ^ nearest_pow_2 w

/- Checked `u32` arithmetic: `none` marks a Rust panic (overflow and
underflow as in a debug build, division by zero in every build). -/

/-- `u32` range bound. -/
def U32 : ℕ := 2 ^ 32

/-- `u32` multiplication; `none` on overflow. -/
def mul32 (a b : ℕ) : Option ℕ := if a * b < U32 then some (a * b) else none

/-- `u32` addition; `none` on overflow. -/
def add32 (a b : ℕ) : Option ℕ := if a + b < U32 then some (a + b) else none

/-- `u32` subtraction; `none` on underflow. -/
def sub32 (a b : ℕ) : Option ℕ := if b ≤ a then some (a - b) else none

/-- `u32` division; `none` on a zero divisor. -/
def div32 (a b : ℕ) : Option ℕ := if b = 0 then none else some (a / b)

/-- `u32::pow`; `none` on overflow. -/
def pow32 (a b : ℕ) : Option ℕ := if a ^ b < U32 then some (a ^ b) else none

/-- The whole generation-start parameter computation of the `fft_process`
thread (src/main.rs:159-186), with every `u32` operation checked.  The
source contains no validity test on this path: the only outcomes are a
parameter tuple or a panic (`none`). -/
noncomputable def fftParams (rate imgX imgY freqMin freqMax : ℕ) :
    Option (ℕ × ℕ × ℕ × ℕ × ℕ) := do
  let spf ← mul32 rate frame_sec
  let spp ← div32 spf imgX
  let ov := overlap_samples spp
  let ov2 ← mul32 ov 2
  let w ← add32 spp ov2
  let shift ← sub32 w ov
  let fft ← pow32 2 (nearest_pow_2 w)
  let den ← sub32 (fft / 2) 1
  let fpb ← div32 (rate / 2) den
  let sFirst ← mul32 fpb freqMin
  let sLast ← mul32 fpb freqMax
  let dy ← sub32 sLast sFirst
  let sppY ← div32 dy imgY
  return (w, shift, fft, fpb, sppY)

lemma overlap_samples_zero : overlap_samples 0 = 0 := by
  rw [overlap_samples]; norm_num

lemma nearest_pow_2_zero : nearest_pow_2 0 = 0 := by
  rw [nearest_pow_2]; norm_num

/-- The source's `ln(w)/ln(2)` is the base-2 logarithm. -/
lemma log_div_log_eq_logb (w : ℕ) : Real.log w / Real.log 2 = Real.logb 2 w := by
  rw [Real.logb]

/-- For `1 ≤ w` the source exponent `⌈ln w / ln 2⌉` is `Nat.clog 2 w`. -/
lemma nearest_pow_2_eq_clog {w : ℕ} (hw : 1 ≤ w) :
    nearest_pow_2 w = Nat.clog 2 w := by
  have h0 : (0 : ℝ) ≤ (w : ℝ) := by positivity
  have h1 : (1 : ℝ) ≤ (w : ℝ) := by exact_mod_cast hw
  rw [nearest_pow_2, log_div_log_eq_logb]
  have hceil : ⌈Real.logb 2 (w : ℝ)⌉ = Int.clog 2 (w : ℝ) := by
    simpa using Real.ceil_logb_natCast h0
  rw [hceil, Int.clog_of_one_le_right 2 h1]
  simp

/-- `w ≤ fft_size w` for `1 ≤ w`. -/
lemma le_fft_size {w : ℕ} (hw : 1 ≤ w) : w ≤ fft_size w := by
  rw [fft_size, nearest_pow_2_eq_clog hw]
  exact Nat.le_pow_clog one_lt_two w

lemma overlap_samples_67 : overlap_samples 67 = 22 := by
  rw [overlap_samples]
  have h : round (((67 : ℕ) : ℚ) * (33 / 100)) = 22 := by
    push_cast
    norm_num [round_eq]
  rw [h]; rfl

lemma clog_two_111 : Nat.clog 2 111 = 7 := by
  have h1 : Nat.clog 2 111 ≤ 7 := (Nat.le_pow_iff_clog_le one_lt_two).1 (by norm_num)
  have h2 : ¬ Nat.clog 2 111 ≤ 6 := by
    intro h
    have := (Nat.le_pow_iff_clog_le one_lt_two).2 h
    norm_num at this
  omega

/-- C4 counterexample: `window_size = 3221225472 = 3·2^30` is in the
claim's domain (`≥ 1`), and there the exponent is 32.  The exponent value
is robust against every f32 detail: `3·2^30` is exactly representable in
f32 (mantissa `1.5`), and `log2(3·2^30) = 31.58496…` is far from an
integer, so any evaluation of the f32 `ln` quotient with libm errors of a
few ulp still lands strictly between 31 and 32, and its ceiling is 32.
With exponent 32 the source's `2_u32.pow` overflows: it panics in a debug
build (`pow32 … = none`) and wraps to `2^32 % 2^32 = 0` in release, and
neither outcome — nor any `u32` value at all, since the least power of two
at or above `3·2^30` is `2^32 > u32::MAX` — equals the smallest power of
two that is at least `window_size`.  So the claimed equality fails at this
input. -/
theorem C4_pow_overflow_counterexample :
    nearest_pow_2 3221225472 = 32 ∧
    pow32 2 (nearest_pow_2 3221225472) = none ∧
    ¬ IsLeast {m : ℕ | 3221225472 ≤ m ∧ ∃ k, m = 2 ^ k}
        (2 ^ nearest_pow_2 3221225472 % U32) := by
  have hexp : nearest_pow_2 3221225472 = 32 := by
    rw [nearest_pow_2_eq_clog (by norm_num)]
    have h1 : Nat.clog 2 3221225472 ≤ 32 :=
      (Nat.le_pow_iff_clog_le one_lt_two).1 (by norm_num)
    have h2 : ¬ Nat.clog 2 3221225472 ≤ 31 := by
      intro h
      have := (Nat.le_pow_iff_clog_le one_lt_two).2 h
      norm_num at this
    omega
  refine ⟨hexp, ?_, ?_⟩
  · rw [hexp, pow32]
    norm_num [U32]
  · rw [hexp]
    have h0 : (2 : ℕ) ^ 32 % U32 = 0 := by norm_num [U32]
    rw [h0]
    intro hle
    exact absurd hle.1.1 (by norm_num)

/-- C4 as amended: for every `window_size` with
`1 ≤ window_size ≤ 2^24` — the range where the `u32 → f32` cast of
`window_size` is exact and where the `u32` power cannot overflow, the
logarithm quotient itself modelled as exact — the `u32` power succeeds and
the computed `fft_size` is the least element of the set of powers of two
that are at least `window_size`. -/
theorem C4_fft_size_least_pow2_bounded (w : ℕ) (hw : 1 ≤ w)
    (hub : w ≤ 2 ^ 24) :
    pow32 2 (nearest_pow_2 w) = some (fft_size w) ∧
    IsLeast {m : ℕ | w ≤ m ∧ ∃ k, m = 2 ^ k} (fft_size w) := by
  refine ⟨?_, ?_, ?_⟩
  · have hcl : Nat.clog 2 w ≤ 24 := by
      have := Nat.clog_mono_right 2 hub
      rw [Nat.clog_pow 2 24 one_lt_two] at this
      exact this
    have hlt : (2 : ℕ) ^ nearest_pow_2 w < U32 := by
      rw [nearest_pow_2_eq_clog hw, U32]
      calc (2 : ℕ) ^ Nat.clog 2 w ≤ 2 ^ 24 := Nat.pow_le_pow_right (by norm_num) hcl
      _ < 2 ^ 32 := by norm_num
    rw [pow32, if_pos hlt, fft_size]
  · exact ⟨le_fft_size hw, nearest_pow_2 w, rfl⟩
  · rintro m ⟨hwm, k, rfl⟩
    rw [fft_size, nearest_pow_2_eq_clog hw]
    exact Nat.pow_le_pow_right (by norm_num)
      ((Nat.le_pow_iff_clog_le one_lt_two).1 hwm)

/-- Witness for the amended C4 at the spec's own example
`window_size = 111`. -/
theorem C4_fft_size_least_pow2_bounded_witness :
    1 ≤ 111 ∧ 111 ≤ 2 ^ 24 ∧
    (pow32 2 (nearest_pow_2 111) = some (fft_size 111) ∧
      IsLeast {m : ℕ | 111 ≤ m ∧ ∃ k, m = 2 ^ k} (fft_size 111)) :=
  ⟨by norm_num, by norm_num,
    C4_fft_size_least_pow2_bounded 111 (by norm_num) (by norm_num)⟩

/-- C8: for `samples_per_pixel_x = 67` and overlap fraction `0.33` the
derived parameters (src/main.rs:167-179) are `overlap_samples = 22`,
`window_size = 111` and `fft_size = 128`. -/
theorem C8_derived_params_example :
    overlap_samples 67 = 22 ∧ window_size 67 = 111 ∧
      fft_size (window_size 67) = 128 := by
  have hw : window_size 67 = 111 := by
    rw [window_size, overlap_samples_67]
  refine ⟨overlap_samples_67, hw, ?_⟩
  rw [hw, fft_size, nearest_pow_2_eq_clog (by norm_num), clog_two_111]
  norm_num

/-- C9: for every `length ≥ 2` and every shape, the window generator of
`src/windows.rs` returns exactly `length` coefficients, is deterministic,
and for `Rectangle` every coefficient equals `1`. -/
theorem C9_generate_contract (sh : FftWindowType) (L : ℕ) (_hL : 2 ≤ L) :
    (generate sh L).length = L ∧ generate sh L = generate sh L ∧
      ∀ x ∈ generate FftWindowType.rectangle L, x = 1 := by
  refine ⟨?_, rfl, ?_⟩
  · cases sh <;>
      simp [generate, rectangle, cosine, triangle, hamming, hann, blackman,
        nuttall, flat]
  · intro x hx
    simp only [generate, rectangle] at hx
    exact List.eq_of_mem_replicate hx

/-- Witness for C9 at shape `blackman`, `length = 4`. -/
theorem C9_generate_contract_witness :
    2 ≤ 4 ∧ ((generate FftWindowType.blackman 4).length = 4 ∧
      generate FftWindowType.blackman 4 = generate FftWindowType.blackman 4 ∧
      ∀ x ∈ generate FftWindowType.rectangle 4, x = 1) :=
  ⟨by norm_num, C9_generate_contract FftWindowType.blackman 4 (by norm_num)⟩

/-- C3: evaluation of the source window formulas at the failing input
`L = 2`, `n = 0` (all cosines equal `1`).  The source's parenthesisation
(src/windows.rs:43-57) subtracts the `4πn` Blackman term and adds the `6πn`
Nuttall term, the opposite signs of the spec's formula table; at `n = 0`
the source Blackman coefficient is negative while the spec's formula gives
a small positive value, so the two disagree. -/
theorem C3_window_sign_eval :
    blackmanCoef 2 0 = (0.42659 - (0.496560 + 0.076849)) * 2.381 ∧
    blackmanCoef 2 0 < 0 ∧
    blackmanCoef 2 0 ≠ blackmanCoefSpec 2 0 ∧
    nuttallCoef 2 0 ≠ nuttallCoefSpec 2 0 := by
  simp only [blackmanCoef, blackmanCoefSpec, nuttallCoef, nuttallCoefSpec,
    Nat.cast_zero, mul_zero, zero_div, Real.cos_zero]
  norm_num

/-- C1: evaluation of the generation-start path at a degenerate
configuration (`sample_rate = 500`, `image_width = 65535`,
`image_height = 720`, `freq_range = (100, 2800)`).  There
`samples_per_pixel_x = 0`, so `window_size = 0` — the degenerate case the
claim covers — yet the stage performs no rejection: the computation reaches
`fft_size = 1` and then panics on the `u32` underflow `fft_size/2 - 1`
(src/main.rs:183) instead of reporting a configuration error; in a release
build the subtraction wraps and the loop starts with a garbage
`freq_per_fft_samp`.  No configuration error is surfaced on any path of
src/main.rs:151-195. -/
theorem C1_no_degenerate_rejection :
    samples_per_pixel_x 500 65535 = 0 ∧
    window_size (samples_per_pixel_x 500 65535) = 0 ∧
    fftParams 500 65535 720 100 2800 = none := by
  have hspp : samples_per_pixel_x 500 65535 = 0 := by
    rw [samples_per_pixel_x, samples_per_frame, frame_sec]
  refine ⟨hspp, ?_, ?_⟩
  · rw [hspp, window_size, overlap_samples_zero]
  · norm_num [fftParams, mul32, div32, add32, sub32, pow32, U32, frame_sec,
      overlap_samples_zero, nearest_pow_2_zero, Option.bind]

/- ## The per-sample window/FFT/normalize loop (src/main.rs:196-235) -/

/-- The per-generation parameters the `fft_process` loop closes over:
`window_size`, `shift_size`, `overlap_samples`, `fft_size` and the window
coefficient vector `window.window_func`. -/
structure FftGen where
  window_size : ℕ
  shift_size : ℕ
  overlap_samples : ℕ
  fft_size : ℕ
  window_func : List ℝ

/-- The generation whose parameters the stage derives from
`samples_per_pixel_x` (src/main.rs:165-179), with the coefficient vector
supplied by the configuration. -/
noncomputable def mkGen (spp : ℕ) (coeffs : List ℝ) : FftGen :=
  ⟨window_size spp, shift_size spp, overlap_samples spp,
    fft_size (window_size spp), coeffs⟩

/-- The unnormalized forward discrete Fourier transform computed in place by
`fft.process_with_scratch` (rustfft's forward convention):
`X_k = Σ_n x_n · exp(-2πi·k·n/N)`. -/
noncomputable def dft (x : List ℂ) (k : ℕ) : ℂ :=
  ∑ n ∈ Finset.range x.length,
    x.getD n 0 * Complex.exp (-(2 * (Real.pi : ℂ) * Complex.I * k * n) / x.length)

/-- `buffer_raw.iter().zip(&window.window_func).map(|x| Complex::from(*x.0 * x.1))`
(src/main.rs:203-207). -/
def windowed (G : FftGen) (buf : List ℝ) : List ℂ :=
  (buf.zip G.window_func).map fun p => ((p.1 * p.2 : ℝ) : ℂ)

/-- Zero padding `buffer_proc.extend(vec![0; fft_size - window_size])`
(src/main.rs:210). -/
def padded (G : FftGen) (buf : List ℝ) : List ℂ :=
  windowed G buf ++ List.replicate (G.fft_size - G.window_size) 0

/-- The frame the loop pushes onto `buffer_proc_lrg` (src/main.rs:213-224):
transform `buffer_proc` in place, `truncate(fft_size/2)`, then map
`x.norm() / sqrt(fft_size)`. -/
noncomputable def frameOf (G : FftGen) (buf : List ℝ) : List ℝ :=
  (((List.range (padded G buf).length).map (dft (padded G buf))).take
      (G.fft_size / 2)).map
    fun z => Complex.abs z / Real.sqrt G.fft_size

/-- Loop state: `buffer_raw` and the emitted frames `buffer_proc_lrg`. -/
structure TState where
  raw : List ℝ
  frames : List (List ℝ)

/-- One iteration of `for s in d` (src/main.rs:198-234): push the sample;
when `buffer_raw.len() >= window_size`, emit the frame, then
`rotate_left(shift_size)` and `truncate(overlap_samples)` (`rotate_left`
written out on a buffer of sufficient length, `truncate` as `take`). -/
noncomputable def pushSample (G : FftGen) (st : TState) (s : ℝ) : TState :=
  if G.window_size ≤ (st.raw ++ [s]).length then
    { raw := ((st.raw ++ [s]).drop G.shift_size ++
        (st.raw ++ [s]).take G.shift_size).take G.overlap_samples,
      frames := st.frames ++ [frameOf G (st.raw ++ [s])] }
  else
    { raw := st.raw ++ [s], frames := st.frames }

/-- Folding the per-sample step over further incoming samples. -/
noncomputable def runFrom (G : FftGen) (st : TState) (samples : List ℝ) : TState :=
  samples.foldl (pushSample G) st

/-- A generation run from the empty buffers (src/main.rs:188-190). -/
noncomputable def runGen (G : FftGen) (samples : List ℝ) : TState :=
  runFrom G ⟨[], []⟩ samples

lemma overlap_lt_window {spp : ℕ} (h : 1 ≤ window_size spp) :
    overlap_samples spp < window_size spp := by
  rw [window_size] at h ⊢; omega

lemma shift_add_overlap (spp : ℕ) :
    shift_size spp + overlap_samples spp = window_size spp := by
  rw [shift_size, window_size]; omega

lemma one_le_shift {spp : ℕ} (h : 1 ≤ window_size spp) :
    1 ≤ shift_size spp := by
  have h1 := overlap_lt_window h
  have h2 := shift_add_overlap spp
  omega

/-- Entering an iteration with a short buffer, the trigger fires exactly at
length `window_size`. -/
lemma trigger_length {G : FftGen} {st : TState} {s : ℝ}
    (hinv : st.raw.length < G.window_size)
    (htr : G.window_size ≤ (st.raw ++ [s]).length) :
    (st.raw ++ [s]).length = G.window_size := by
  simp only [List.length_append, List.length_cons, List.length_nil] at htr ⊢
  omega

/-- On a trigger, the new raw buffer is the dropped tail of the window and
the frame of the full window is appended. -/
lemma pushSample_of_trigger {G : FftGen} {st : TState} {s : ℝ}
    (hw : G.shift_size + G.overlap_samples = G.window_size)
    (hinv : st.raw.length < G.window_size)
    (htr : G.window_size ≤ (st.raw ++ [s]).length) :
    (pushSample G st s).raw = (st.raw ++ [s]).drop G.shift_size ∧
    (pushSample G st s).frames = st.frames ++ [frameOf G (st.raw ++ [s])] := by
  have hlen := trigger_length hinv htr
  rw [pushSample, if_pos htr]
  refine ⟨?_, rfl⟩
  have hdrop : ((st.raw ++ [s]).drop G.shift_size).length = G.overlap_samples := by
    simp only [List.length_drop, hlen]
    omega
  exact List.take_left' hdrop

/-- On a non-trigger, the sample is appended and nothing else happens. -/
lemma pushSample_of_no_trigger {G : FftGen} {st : TState} {s : ℝ}
    (htr : ¬ G.window_size ≤ (st.raw ++ [s]).length) :
    pushSample G st s = ⟨st.raw ++ [s], st.frames⟩ := by
  rw [pushSample, if_neg htr]

/-- The loop invariant: at the top of each iteration `buffer_raw` is
strictly shorter than `window_size`. -/
lemma pushSample_raw_short {G : FftGen} {st : TState} {s : ℝ}
    (hov : G.overlap_samples < G.window_size) :
    (pushSample G st s).raw.length < G.window_size := by
  by_cases htr : G.window_size ≤ (st.raw ++ [s]).length
  · rw [pushSample, if_pos htr]
    calc ((((st.raw ++ [s]).drop G.shift_size ++ (st.raw ++ [s]).take G.shift_size).take
        G.overlap_samples)).length ≤ G.overlap_samples := by
          simp [List.length_take]
    _ < G.window_size := hov
  · rw [pushSample_of_no_trigger htr]
    simp only [List.length_append, List.length_cons, List.length_nil] at htr ⊢
    omega

lemma runFrom_raw_short {G : FftGen} (hov : G.overlap_samples < G.window_size) :
    ∀ (samples : List ℝ) (st : TState), st.raw.length < G.window_size →
      (runFrom G st samples).raw.length < G.window_size := by
  intro samples
  induction samples with
  | nil => intro st h; exact h
  | cons x xs ih =>
    intro st h
    rw [runFrom, List.foldl_cons]
    exact ih (pushSample G st x) (pushSample_raw_short hov)

lemma runGen_raw_short {G : FftGen} (hov : G.overlap_samples < G.window_size)
    (hw : 1 ≤ G.window_size) (samples : List ℝ) :
    (runGen G samples).raw.length < G.window_size := by
  rw [runGen]
  exact runFrom_raw_short hov samples ⟨[], []⟩ (by simpa using hw)

/-- While the buffer stays short of `window_size`, the loop only appends. -/
lemma runFrom_no_trigger {G : FftGen} :
    ∀ (ks : List ℝ) (st : TState),
      st.raw.length + ks.length < G.window_size →
      runFrom G st ks = ⟨st.raw ++ ks, st.frames⟩ := by
  intro ks
  induction ks with
  | nil =>
    intro st _
    show st = _
    cases st with
    | mk raw frames => simp
  | cons x xs ih =>
    intro st h
    rw [runFrom, List.foldl_cons]
    have hx : pushSample G st x = ⟨st.raw ++ [x], st.frames⟩ := by
      apply pushSample_of_no_trigger
      simp only [List.length_append, List.length_cons, List.length_nil]
      simp only [List.length_cons] at h
      omega
    rw [hx]
    have h2 : (TState.mk (st.raw ++ [x]) st.frames).raw.length + xs.length
        < G.window_size := by
      simp only [List.length_append, List.length_cons, List.length_nil]
      simp only [List.length_cons] at h
      omega
    have hxs := ih ⟨st.raw ++ [x], st.frames⟩ h2
    rw [runFrom] at hxs
    rw [hxs]
    simp

lemma mkGen_window_size (spp : ℕ) (coeffs : List ℝ) :
    (mkGen spp coeffs).window_size = window_size spp := rfl

lemma mkGen_shift_size (spp : ℕ) (coeffs : List ℝ) :
    (mkGen spp coeffs).shift_size = shift_size spp := rfl

lemma mkGen_overlap_samples (spp : ℕ) (coeffs : List ℝ) :
    (mkGen spp coeffs).overlap_samples = overlap_samples spp := rfl

lemma mkGen_shift_sum (spp : ℕ) (coeffs : List ℝ) :
    (mkGen spp coeffs).shift_size + (mkGen spp coeffs).overlap_samples =
      (mkGen spp coeffs).window_size := shift_add_overlap spp

lemma mkGen_overlap_lt {spp : ℕ} (coeffs : List ℝ) (hw : 1 ≤ window_size spp) :
    (mkGen spp coeffs).overlap_samples < (mkGen spp coeffs).window_size :=
  overlap_lt_window hw

lemma overlap_samples_one : overlap_samples 1 = 0 := by
  rw [overlap_samples]
  have h : round (((1 : ℕ) : ℚ) * (33 / 100)) = 0 := by
    push_cast
    norm_num [round_eq]
  rw [h]; rfl

lemma window_size_one : window_size 1 = 1 := by
  rw [window_size, overlap_samples_one]

lemma shift_size_one : shift_size 1 = 1 := by
  rw [shift_size, window_size_one, overlap_samples_one]

/-- C5: in a generation with `window_size ≥ 1`, at any reachable loop state
where the sample just pushed completes a window, the completed window has
exactly `window_size` samples, and after the shift-and-truncate step the
raw buffer is exactly the trailing `overlap_samples` samples of that
window. -/
theorem C5_post_window_buffer (spp : ℕ) (coeffs : List ℝ) (pre : List ℝ)
    (s : ℝ) (st : TState) (hst : st = runGen (mkGen spp coeffs) pre)
    (hw : 1 ≤ window_size spp)
    (htr : window_size spp ≤ (st.raw ++ [s]).length) :
    (st.raw ++ [s]).length = window_size spp ∧
    (pushSample (mkGen spp coeffs) st s).raw =
      (st.raw ++ [s]).drop ((st.raw ++ [s]).length - overlap_samples spp) ∧
    (pushSample (mkGen spp coeffs) st s).raw.length = overlap_samples spp := by
  have hso := shift_add_overlap spp
  have hov := mkGen_overlap_lt coeffs hw
  have hinv : st.raw.length < (mkGen spp coeffs).window_size := by
    rw [hst]
    exact runGen_raw_short hov hw pre
  have htr' : (mkGen spp coeffs).window_size ≤ (st.raw ++ [s]).length := htr
  have hlen := trigger_length hinv htr'
  obtain ⟨hraw, -⟩ := pushSample_of_trigger (mkGen_shift_sum spp coeffs) hinv htr'
  rw [mkGen_window_size] at hlen
  refine ⟨hlen, ?_, ?_⟩
  · rw [hraw, mkGen_shift_size]
    congr 1
    rw [hlen]
    omega
  · rw [hraw, mkGen_shift_size, List.length_drop, hlen]
    omega

/-- Witness for C5 at `samples_per_pixel_x = 1` (`window_size = 1`,
`overlap_samples = 0`): the first pushed sample completes a window. -/
theorem C5_post_window_buffer_witness :
    (⟨[], []⟩ : TState) = runGen (mkGen 1 []) [] ∧
    1 ≤ window_size 1 ∧
    window_size 1 ≤ ((⟨[], []⟩ : TState).raw ++ [(0 : ℝ)]).length ∧
    (((⟨[], []⟩ : TState).raw ++ [(0 : ℝ)]).length = window_size 1 ∧
      (pushSample (mkGen 1 []) ⟨[], []⟩ (0 : ℝ)).raw =
        ((⟨[], []⟩ : TState).raw ++ [(0 : ℝ)]).drop
          (((⟨[], []⟩ : TState).raw ++ [(0 : ℝ)]).length - overlap_samples 1) ∧
      (pushSample (mkGen 1 []) ⟨[], []⟩ (0 : ℝ)).raw.length = overlap_samples 1) := by
  have h1 : (1 : ℕ) ≤ window_size 1 := by rw [window_size_one]
  have h2 : window_size 1 ≤ ((⟨[], []⟩ : TState).raw ++ [(0 : ℝ)]).length := by
    rw [window_size_one]; simp
  exact ⟨rfl, h1, h2, C5_post_window_buffer 1 [] [] 0 ⟨[], []⟩ rfl h1 h2⟩

/-- C10: in a generation with `window_size ≥ 1`, whenever the loop's length
check `buffer_raw.len() >= window_size` succeeds at a reachable state, the
buffer holds exactly `window_size` samples and `shift_size` is at most the
buffer length, so `rotate_left(shift_size)` (and the subsequent
`truncate(overlap_samples)`) cannot panic. -/
theorem C10_rotate_in_bounds (spp : ℕ) (coeffs : List ℝ) (pre : List ℝ)
    (s : ℝ) (st : TState) (hst : st = runGen (mkGen spp coeffs) pre)
    (hw : 1 ≤ window_size spp)
    (htr : window_size spp ≤ (st.raw ++ [s]).length) :
    (st.raw ++ [s]).length = window_size spp ∧
    shift_size spp ≤ (st.raw ++ [s]).length := by
  have hso := shift_add_overlap spp
  have hov := mkGen_overlap_lt coeffs hw
  have hinv : st.raw.length < (mkGen spp coeffs).window_size := by
    rw [hst]
    exact runGen_raw_short hov hw pre
  have hlen := trigger_length hinv htr
  rw [mkGen_window_size] at hlen
  refine ⟨hlen, ?_⟩
  rw [hlen]
  omega

/-- Witness for C10 at `samples_per_pixel_x = 1`. -/
theorem C10_rotate_in_bounds_witness :
    (⟨[], []⟩ : TState) = runGen (mkGen 1 []) [] ∧
    1 ≤ window_size 1 ∧
    window_size 1 ≤ ((⟨[], []⟩ : TState).raw ++ [(0 : ℝ)]).length ∧
    (((⟨[], []⟩ : TState).raw ++ [(0 : ℝ)]).length = window_size 1 ∧
      shift_size 1 ≤ ((⟨[], []⟩ : TState).raw ++ [(0 : ℝ)]).length) := by
  have h1 : (1 : ℕ) ≤ window_size 1 := by rw [window_size_one]
  have h2 : window_size 1 ≤ ((⟨[], []⟩ : TState).raw ++ [(0 : ℝ)]).length := by
    rw [window_size_one]; simp
  exact ⟨rfl, h1, h2, C10_rotate_in_bounds 1 [] [] 0 ⟨[], []⟩ rfl h1 h2⟩

/-- C6: in a generation with `window_size ≥ 1`, from a state whose buffer
holds exactly `overlap_samples` samples (the state after a completed
window), feeding fewer than `shift_size` samples emits no frame, and
feeding exactly `shift_size` samples emits exactly one frame. -/
theorem C6_shift_emits_one (spp : ℕ) (coeffs : List ℝ) (st : TState)
    (ks : List ℝ) (hw : 1 ≤ window_size spp)
    (hraw : st.raw.length = overlap_samples spp) :
    (ks.length < shift_size spp →
      (runFrom (mkGen spp coeffs) st ks).frames = st.frames) ∧
    (ks.length = shift_size spp →
      ∃ fr, (runFrom (mkGen spp coeffs) st ks).frames = st.frames ++ [fr]) := by
  have hso := shift_add_overlap spp
  constructor
  · intro hk
    have h : st.raw.length + ks.length < (mkGen spp coeffs).window_size := by
      rw [mkGen_window_size]
      omega
    rw [runFrom_no_trigger ks st h]
  · intro hk
    have hsh := one_le_shift hw
    have hne : ks ≠ [] := by
      intro h
      rw [h] at hk
      simp at hk
      omega
    obtain ⟨ys, y, rfl⟩ : ∃ ys y, ks = ys ++ [y] :=
      ⟨ks.dropLast, ks.getLast hne, (List.dropLast_append_getLast hne).symm⟩
    have hys_len : ys.length + 1 = shift_size spp := by
      simpa using hk
    rw [runFrom, List.foldl_append, List.foldl_cons, List.foldl_nil]
    have hnt : st.raw.length + ys.length < (mkGen spp coeffs).window_size := by
      rw [mkGen_window_size]
      omega
    have hys := runFrom_no_trigger ys st hnt
    rw [runFrom] at hys
    rw [hys]
    have hinv : (TState.mk (st.raw ++ ys) st.frames).raw.length
        < (mkGen spp coeffs).window_size := by
      rw [mkGen_window_size]
      simp only [List.length_append]
      omega
    have htr : (mkGen spp coeffs).window_size
        ≤ ((TState.mk (st.raw ++ ys) st.frames).raw ++ [y]).length := by
      rw [mkGen_window_size]
      simp only [List.length_append, List.length_cons, List.length_nil]
      omega
    obtain ⟨-, hfr⟩ := pushSample_of_trigger (mkGen_shift_sum spp coeffs) hinv htr
    exact ⟨frameOf (mkGen spp coeffs) ((st.raw ++ ys) ++ [y]), hfr⟩

/-- Witness for C6 at `samples_per_pixel_x = 1` (`overlap_samples = 0`,
`shift_size = 1`), from the empty post-window buffer. -/
theorem C6_shift_emits_one_witness :
    1 ≤ window_size 1 ∧
    (⟨[], []⟩ : TState).raw.length = overlap_samples 1 ∧
    ((([(0 : ℝ)]).length < shift_size 1 →
      (runFrom (mkGen 1 []) ⟨[], []⟩ [(0 : ℝ)]).frames = (⟨[], []⟩ : TState).frames) ∧
    (([(0 : ℝ)]).length = shift_size 1 →
      ∃ fr, (runFrom (mkGen 1 []) ⟨[], []⟩ [(0 : ℝ)]).frames =
        (⟨[], []⟩ : TState).frames ++ [fr])) := by
  have h1 : (1 : ℕ) ≤ window_size 1 := by rw [window_size_one]
  have h2 : (⟨[], []⟩ : TState).raw.length = overlap_samples 1 := by
    rw [overlap_samples_one]; rfl
  exact ⟨h1, h2, C6_shift_emits_one 1 [] ⟨[], []⟩ [(0 : ℝ)] h1 h2⟩

lemma padded_length {G : FftGen} {buf : List ℝ} (hb : buf.length = G.window_size)
    (hc : G.window_func.length = G.window_size)
    (hwf : G.window_size ≤ G.fft_size) :
    (padded G buf).length = G.fft_size := by
  simp only [padded, windowed, List.length_append, List.length_map,
    List.length_zip, List.length_replicate, hb, hc, Nat.min_self]
  omega

lemma frameOf_eq {G : FftGen} {buf : List ℝ}
    (hp : (padded G buf).length = G.fft_size) :
    frameOf G buf = (List.range (G.fft_size / 2)).map
      fun k => Complex.abs (dft (padded G buf) k) / Real.sqrt G.fft_size := by
  rw [frameOf, hp, ← List.map_take, List.take_range,
    Nat.min_eq_left (Nat.div_le_self _ _), List.map_map]
  rfl

/-- C7: in a generation with `window_size ≥ 1` and a coefficient vector of
length `window_size` (spec §3), every frame the loop emits at a reachable
trigger has exactly `fft_size/2` values, and the value at index `k` is the
complex magnitude of the `k`-th forward-FFT bin of the padded windowed
buffer divided by `sqrt(fft_size)`. -/
theorem C7_frame_normalized (spp : ℕ) (coeffs : List ℝ) (pre : List ℝ)
    (s : ℝ) (st : TState) (hst : st = runGen (mkGen spp coeffs) pre)
    (hw : 1 ≤ window_size spp)
    (hc : coeffs.length = window_size spp)
    (htr : window_size spp ≤ (st.raw ++ [s]).length) :
    (pushSample (mkGen spp coeffs) st s).frames
      = st.frames ++ [frameOf (mkGen spp coeffs) (st.raw ++ [s])] ∧
    (frameOf (mkGen spp coeffs) (st.raw ++ [s])).length
      = fft_size (window_size spp) / 2 ∧
    frameOf (mkGen spp coeffs) (st.raw ++ [s])
      = (List.range (fft_size (window_size spp) / 2)).map
          fun k => Complex.abs (dft (padded (mkGen spp coeffs) (st.raw ++ [s])) k)
            / Real.sqrt (fft_size (window_size spp)) := by
  have hov := mkGen_overlap_lt coeffs hw
  have hinv : st.raw.length < (mkGen spp coeffs).window_size := by
    rw [hst]
    exact runGen_raw_short hov hw pre
  have hlen := trigger_length hinv htr
  have hp : (padded (mkGen spp coeffs) (st.raw ++ [s])).length
      = (mkGen spp coeffs).fft_size := by
    apply padded_length hlen
    · exact hc
    · exact le_fft_size hw
  obtain ⟨-, hfr⟩ := pushSample_of_trigger (mkGen_shift_sum spp coeffs) hinv htr
  have heq := frameOf_eq hp
  refine ⟨hfr, ?_, heq⟩
  rw [heq]
  simp only [List.length_map, List.length_range]
  rfl

/-- Witness for C7 at `samples_per_pixel_x = 1` with the length-1
rectangle coefficient vector `[1]`. -/
theorem C7_frame_normalized_witness :
    (⟨[], []⟩ : TState) = runGen (mkGen 1 [1]) [] ∧
    1 ≤ window_size 1 ∧
    ([(1 : ℝ)]).length = window_size 1 ∧
    window_size 1 ≤ ((⟨[], []⟩ : TState).raw ++ [(0 : ℝ)]).length ∧
    ((pushSample (mkGen 1 [1]) ⟨[], []⟩ (0 : ℝ)).frames
      = (⟨[], []⟩ : TState).frames ++
          [frameOf (mkGen 1 [1]) ((⟨[], []⟩ : TState).raw ++ [(0 : ℝ)])] ∧
    (frameOf (mkGen 1 [1]) ((⟨[], []⟩ : TState).raw ++ [(0 : ℝ)])).length
      = fft_size (window_size 1) / 2 ∧
    frameOf (mkGen 1 [1]) ((⟨[], []⟩ : TState).raw ++ [(0 : ℝ)])
      = (List.range (fft_size (window_size 1) / 2)).map
          fun k => Complex.abs
              (dft (padded (mkGen 1 [1]) ((⟨[], []⟩ : TState).raw ++ [(0 : ℝ)])) k)
            / Real.sqrt (fft_size (window_size 1))) := by
  have h1 : (1 : ℕ) ≤ window_size 1 := by rw [window_size_one]
  have h2 : ([(1 : ℝ)]).length = window_size 1 := by
    rw [window_size_one]
    rfl
  have h3 : window_size 1 ≤ ((⟨[], []⟩ : TState).raw ++ [(0 : ℝ)]).length := by
    rw [window_size_one]; simp
  exact ⟨rfl, h1, h2, h3, C7_frame_normalized 1 [1] [] 0 ⟨[], []⟩ rfl h1 h2 h3⟩

/- ## Worker-thread shutdown behaviour (src/main.rs:120-141, 196-245,
256-266)

Each worker's loop around its blocking point is modelled as a step function
on an explicit state.  The scenario is the spec's shutdown protocol (§5):
the quit flag is already set, one notification is delivered to the
condition variable the thread is parked on, and no further notification
ever arrives; `notified` records whether that single wakeup is still
pending.  One step is one pass of the loop body after a wakeup (or the
absence of one). -/

/-- Program point of the audio_capture thread: parked in `cvar.wait`
(src/main.rs:127) or past `break 'restart_loop` (src/main.rs:140). -/
inductive APc
  | waiting | exited
deriving DecidableEq, Repr

/-- Audio thread state: the restart flag, the quit flag, the pending-wakeup
marker and the program point. -/
structure AudioState where
  restart : Bool
  quit : Bool
  notified : Bool
  pc : APc
deriving DecidableEq, Repr

/-- One pass of the audio thread around its restart wait
(src/main.rs:124-141): the thread leaves `cvar.wait` only on a wakeup; the
`while !*restart` guard re-enters the wait (consuming the wakeup) when the
restart flag is false; with the flag true the wait loop ends, the stream is
dropped, and the quit check either breaks the loop or reopens a stream,
clearing the restart flag and parking again. -/
def audioStep : AudioState → AudioState
  | ⟨r, q, n, .waiting⟩ =>
    if n then
      if r then
        if q then ⟨r, q, false, .exited⟩
        else ⟨false, q, false, .waiting⟩
      else ⟨r, q, false, .waiting⟩
    else ⟨r, q, n, .waiting⟩
  | s => s

/-- Program point of the image thread: parked in or about to re-test its
`while !*start` wait (src/main.rs:259-261) or past `break`
(src/main.rs:264). -/
inductive IPc
  | waiting | exited
deriving DecidableEq, Repr

/-- Image thread state: the frame-ready flag (`start`), the quit flag, the
pending-wakeup marker and the program point. -/
structure ImageState where
  frameReady : Bool
  quit : Bool
  notified : Bool
  pc : IPc
deriving DecidableEq, Repr

/-- One pass of the image thread (src/main.rs:256-266): with `start` true
the `while !*start` loop falls through without waiting (the thread never
clears the flag) and the quit check either breaks or re-runs the loop; with
`start` false the thread leaves `cvar.wait` only on a wakeup, and the guard
immediately re-enters the wait, consuming the wakeup. -/
def imageStep : ImageState → ImageState
  | ⟨f, q, n, .waiting⟩ =>
    if f then
      if q then ⟨f, q, n, .exited⟩
      else ⟨f, q, n, .waiting⟩
    else
      if n then ⟨f, q, false, .waiting⟩ else ⟨f, q, n, .waiting⟩
  | s => s

/-- Program point of the fft_process thread: inside `for d in &rx` or past
`break 'outer` (src/main.rs:245). -/
inductive FPc
  | receiving | exited
deriving DecidableEq, Repr

/-- The fft_process thread's state once the channel's sender has been
dropped: the packets still buffered in the channel, the loop state, and the
program point. -/
structure FftThread where
  pending : List (List ℝ)
  ts : TState
  pc : FPc

/-- One iteration of `for d in &rx` after the sender is dropped
(src/main.rs:196-245): each pass consumes one buffered packet through the
per-sample loop; once the queue is drained the iterator yields `None` and
the thread breaks out of `'outer`. -/
noncomputable def fftStep (G : FftGen) : FftThread → FftThread
  | ⟨[], ts, .receiving⟩ => ⟨[], ts, .exited⟩
  | ⟨d :: ds, ts, .receiving⟩ => ⟨ds, runFrom G ts d, .receiving⟩
  | s => s

lemma audioStep_stale :
    ∀ n, audioStep^[n] ⟨false, true, true, .waiting⟩
        = ⟨false, true, true, .waiting⟩ ∨
      audioStep^[n] ⟨false, true, true, .waiting⟩
        = ⟨false, true, false, .waiting⟩ := by
  intro n
  induction n with
  | zero => left; rfl
  | succ m ih =>
    rw [Function.iterate_succ_apply']
    rcases ih with h | h <;> rw [h] <;> right <;> rfl

lemma imageStep_stale :
    ∀ n, imageStep^[n] ⟨false, true, true, .waiting⟩
        = ⟨false, true, true, .waiting⟩ ∨
      imageStep^[n] ⟨false, true, true, .waiting⟩
        = ⟨false, true, false, .waiting⟩ := by
  intro n
  induction n with
  | zero => left; rfl
  | succ m ih =>
    rw [Function.iterate_succ_apply']
    rcases ih with h | h <;> rw [h] <;> right <;> rfl

/-- C2 counterexample: with the quit flag set and both condition variables
notified while their associated flags are false (an allowed flag valuation
under the claim's "regardless of the values"), the audio thread and the
image thread never exit: the woken thread re-enters its wait with the
wakeup consumed and is parked forever after. -/
theorem C2_stale_wake_counterexample :
    (¬ ∃ n, (audioStep^[n] ⟨false, true, true, .waiting⟩).pc = .exited) ∧
    (¬ ∃ n, (imageStep^[n] ⟨false, true, true, .waiting⟩).pc = .exited) := by
  constructor
  · rintro ⟨n, hn⟩
    rcases audioStep_stale n with h | h <;> rw [h] at hn <;> exact absurd hn (by simp)
  · rintro ⟨n, hn⟩
    rcases imageStep_stale n with h | h <;> rw [h] at hn <;> exact absurd hn (by simp)

/-- C2 as amended: once quit is set, every worker terminates in a bounded
number of loop iterations provided each condition variable is notified with
its associated flag set true — the audio thread in one pass when the
restart flag is true at wake time, the image thread in one pass when the
frame-ready flag is true, and the fft thread in `pending.length + 1` passes
once the channel's sender is dropped (which the audio thread's exit
causes). -/
theorem C2_quit_terminates_with_flags (G : FftGen) (ps : List (List ℝ))
    (ts : TState) :
    (audioStep ⟨true, true, true, .waiting⟩).pc = .exited ∧
    (imageStep ⟨true, true, true, .waiting⟩).pc = .exited ∧
    ((fftStep G)^[ps.length + 1] ⟨ps, ts, .receiving⟩).pc = .exited := by
  refine ⟨rfl, rfl, ?_⟩
  induction ps generalizing ts with
  | nil => rfl
  | cons d ds ih =>
    simp only [List.length_cons]
    rw [Function.iterate_succ_apply]
    exact ih (runFrom G ts d)

end QRuSSt
